import Mathlib

/-!
Verification of the trade-analytics pipeline in `analyzer.py`
(`analyze_trades`, `calculate_avg_cost` inside `analyze_current_holdings`,
`filter_trades_by_date`).

Shallow embedding conventions:
* pandas numeric cells are rationals (`ℚ`); the Python built-in `abs` is
  `ratAbs` (definitionally `if q < 0 then -q else q`, equal to `|q|`);
* a `TradeDate` cell is a `DateVal`: either a raw (unparsed) value or a
  parsed timestamp (`pd.to_datetime` output).  `parseDate` models the
  parse; its exact value on raw cells is irrelevant to every theorem,
  only that parsing a raw cell produces a parsed (`dt`) cell;
* calendar accessors (`.dt.date`, `.dt.day_name()`, `.dt.to_period("M")`)
  are modelled as arithmetic key functions on the timestamp; no claim
  depends on the concrete calendar arithmetic, only on dates being keys;
* a pandas `Series.min()` / aligned-join cell that pandas renders as NaN
  (missing) is `Option.none`; a present number `q` is `some q`;
* a dataframe is a `List TradeRow` in row order; dataframe mutation
  (for the frame-effect claims) is modelled by an explicit object store
  indexed by references, mirroring which Python object each statement
  writes to.
-/

namespace Analyzer

/-- Model of the Python built-in `abs` on a numeric cell. -/
def ratAbs (q : ℚ) : ℚ := if q < 0 then -q else q

/-- The model of `abs` agrees with the mathematical absolute value. -/
theorem ratAbs_eq_abs (q : ℚ) : ratAbs q = |q| := by
  unfold ratAbs
  rcases lt_or_le q 0 with h | h
  · rw [if_pos h, abs_of_neg h]
  · rw [if_neg (not_lt.mpr h), abs_of_nonneg h]

/-- A `TradeDate` cell: either still raw input, or the parsed timestamp
produced by `pd.to_datetime`. -/
inductive DateVal where
  | raw (k : Nat)
  | dt (t : Int)
deriving DecidableEq, Repr

/-- Model of `pd.to_datetime` on one cell.  Raw cells parse to some
timestamp (the concrete injection is irrelevant to all theorems);
already-parsed cells are returned unchanged. -/
def parseDate : DateVal → Int
  | DateVal.raw k => Int.ofNat k
  | DateVal.dt t => t

/-- One ledger row.  Base columns come from the export
(`TradeDate, Symbol, Quantity, TradePrice, FifoPnlRealized, IBCommission`);
the `Option`-typed fields are the derived columns (`IsWin`, `DayOfWeek`,
`Month`, `Grade`) that `analyze_trades` adds to the closed-trade copy,
absent (`none`) on source rows. -/
structure TradeRow where
  tradeDate : DateVal
  symbol : String
  quantity : ℚ
  tradePrice : ℚ
  pnl : ℚ
  commission : ℚ
  isWin : Option Bool := none
  dayOfWeek : Option Int := none
  month : Option Int := none
  grade : Option String := none
deriving DecidableEq, Repr

/-- A dataframe of trade rows, in row order. -/
abbrev DF := List TradeRow

/-- Build a source row (derived columns absent). -/
def mkRow (d : DateVal) (s : String) (q p pnl c : ℚ) : TradeRow :=
  { tradeDate := d, symbol := s, quantity := q, tradePrice := p,
    pnl := pnl, commission := c }

/-- Model of `df["TradeDate"] = pd.to_datetime(df["TradeDate"])`:
the date cell of every row becomes the parsed timestamp. -/
def toDatetimeCol (df : DF) : DF :=
  df.map (fun r => { r with tradeDate := DateVal.dt (parseDate r.tradeDate) })

/-- Model of `df.sort_values("TradeDate")`: sort ascending by the parsed
date.  (The tie order chosen by the pandas quicksort is not derivable
from the source; no theorem below depends on it.) -/
def sortByDate (df : DF) : DF :=
  List.insertionSort (fun a b => parseDate a.tradeDate ≤ parseDate b.tradeDate) df

/-- The cleanup/preparation phase of `analyze_trades` (section 1 of the
source): numeric coercion (identity on already-numeric cells), date
parsing, then sort by date. -/
def normalize (df : DF) : DF := sortByDate (toDatetimeCol df)

/-- Model of `df[df["FifoPnlRealized"] != 0]`: the closed-trade set. -/
def closedOf (df : DF) : DF := df.filter (fun r => decide (r.pnl ≠ 0))

/-- The closed-trade set `analyze_trades` works with: filter of the
normalized ledger. -/
def closed_trades (df : DF) : DF := closedOf (normalize df)

/-! ### FIFO lot engine (`calculate_avg_cost` in `analyze_current_holdings`) -/

/-- One FIFO lot: `{"quantity": qty, "price": price}` in the source. -/
structure Lot where
  quantity : ℚ
  price : ℚ
deriving DecidableEq, Repr

/-- The sell loop of `calculate_avg_cost`:
`while remaining_to_sell > 0 and len(lots) > 0:` — pop the front lot
whole when its quantity is at most the remaining sell quantity,
otherwise shrink the front lot and stop. -/
def sellFrom : List Lot → ℚ → List Lot
  | [], _ => []
  | l :: ls, remaining =>
    if 0 < remaining then
      if l.quantity ≤ remaining then sellFrom ls (remaining - l.quantity)
      else { quantity := l.quantity - remaining, price := l.price } :: ls
    else l :: ls

/-- Processing one row of the per-symbol loop in `calculate_avg_cost`:
a buy (`qty > 0`) appends a lot at unit cost
`price + abs(commission) / qty`; otherwise the sell loop runs on
`abs(qty)`. -/
def stepLot (lots : List Lot) (r : TradeRow) : List Lot :=
  if 0 < r.quantity then
    lots ++ [{ quantity := r.quantity,
               price := r.tradePrice + ratAbs r.commission / r.quantity }]
  else
    sellFrom lots (ratAbs r.quantity)

/-- The lot queue left after processing the rows of one symbol in date order. -/
def lotsAfter (rows : DF) : List Lot := (sortByDate rows).foldl stepLot []

/-- Function `calculate_avg_cost`: weighted average unit cost of the surviving
lots, `0` when no lots remain or no shares remain. -/
def calculate_avg_cost (rows : DF) : ℚ :=
  let lots := lotsAfter rows
  if lots.length = 0 then 0
  else
    let total_cost := (lots.map (fun l => l.quantity * l.price)).sum
    let total_shares := (lots.map (fun l => l.quantity)).sum
    if 0 < total_shares then total_cost / total_shares else 0

/-- The C1 scenario: buys of 10 at price 1 then 10 at price 2, then a
sell of 15, all with zero commission, on distinct ascending dates. -/
def fifoExample : DF :=
  [ mkRow (DateVal.dt 1) "XYZ" 10 1 0 0,
    mkRow (DateVal.dt 2) "XYZ" 10 2 0 0,
    mkRow (DateVal.dt 3) "XYZ" (-15) 2 0 0 ]

/-- C1: FIFO lot consumption.  A buy row pushes a lot of its quantity at
unit cost `tradePrice + |commission| / quantity`; the sell loop consumes
the whole front lot while its quantity is at most the remaining sell
quantity and otherwise shrinks the front lot and stops; and on the
concrete ledger of buys 10@1 and 10@2 followed by a sell of 15 the
remaining queue is a single lot of 5 at unit cost 2, whose weighted
average cost is exactly 2, not 3/2. -/
theorem fifo_lot_consumption :
    (∀ (lots : List Lot) (r : TradeRow), 0 < r.quantity →
      stepLot lots r
        = lots ++ [{ quantity := r.quantity,
                     price := r.tradePrice + |r.commission| / r.quantity }])
    ∧ (∀ (rem : ℚ) (l : Lot) (ls : List Lot), 0 < rem → l.quantity ≤ rem →
        sellFrom (l :: ls) rem = sellFrom ls (rem - l.quantity))
    ∧ (∀ (rem : ℚ) (l : Lot) (ls : List Lot), 0 < rem → ¬ l.quantity ≤ rem →
        sellFrom (l :: ls) rem
          = { quantity := l.quantity - rem, price := l.price } :: ls)
    ∧ lotsAfter fifoExample = [{ quantity := 5, price := 2 }]
    ∧ calculate_avg_cost fifoExample = 2
    ∧ calculate_avg_cost fifoExample ≠ 3 / 2 := by
  refine ⟨?_, ?_, ?_, ?_, ?_, ?_⟩
  · intro lots r h
    simp [stepLot, h, ratAbs_eq_abs]
  · intro rem l ls h1 h2
    simp [sellFrom, h1, h2]
  · intro rem l ls h1 h2
    simp [sellFrom, h1, h2]
  · norm_num [lotsAfter, sortByDate, List.insertionSort, List.orderedInsert,
      fifoExample, mkRow, stepLot, sellFrom, ratAbs, parseDate]
  · norm_num [calculate_avg_cost, lotsAfter, sortByDate, List.insertionSort,
      List.orderedInsert, fifoExample, mkRow, stepLot, sellFrom, ratAbs, parseDate]
  · norm_num [calculate_avg_cost, lotsAfter, sortByDate, List.insertionSort,
      List.orderedInsert, fifoExample, mkRow, stepLot, sellFrom, ratAbs, parseDate]

/-- Witness for C1: the general clauses applied at the concrete queue of
the scenario — the first buy pushes its lot, the sell of 15 consumes the
whole front lot of 10, and the remaining 5 shrinks the front lot of the
rest. -/
theorem fifo_lot_consumption_witness :
    stepLot [] (mkRow (DateVal.dt 1) "XYZ" 10 1 0 0)
      = [{ quantity := (10 : ℚ),
           price := (1 : ℚ) + |(0 : ℚ)| / 10 }]
    ∧ sellFrom [{ quantity := 10, price := 1 }, { quantity := 10, price := 2 }] 15
        = sellFrom [{ quantity := 10, price := 2 }] (15 - 10)
    ∧ sellFrom [{ quantity := 10, price := 2 }] 5
        = [{ quantity := (10 : ℚ) - 5, price := 2 }] := by
  refine ⟨?_, ?_, ?_⟩
  · have h := fifo_lot_consumption.1 [] (mkRow (DateVal.dt 1) "XYZ" 10 1 0 0)
      (by norm_num [mkRow])
    simpa [mkRow] using h
  · exact fifo_lot_consumption.2.1 15 { quantity := 10, price := 1 }
      [{ quantity := 10, price := 2 }] (by norm_num) (by norm_num)
  · exact fifo_lot_consumption.2.2.1 5 { quantity := 10, price := 2 } []
      (by norm_num) (by norm_num)

/-! ### Grading (`grade_trade` inside `analyze_trades`) -/

/-- Function `grade_trade(pnl, fee)` from the source: grade a closed trade from
`net = pnl + fee` against multiples of `fee_cost = abs(fee)`
(`0.01` when the commission is exactly zero). -/
def grade_trade (pnl fee : ℚ) : String :=
  let net := pnl + fee
  let fee_cost := if fee ≠ 0 then ratAbs fee else 1 / 100
  if 5 * fee_cost < net then "A+"
  else if 3 * fee_cost < net then "A"
  else if fee_cost < net then "B"
  else if 0 < net then "C"
  else if -fee_cost < net then "D"
  else "F"

/-- C4: the grade of a closed trade is determined from
`net = realizedPnL + commission` and `feeCost = |commission|`
(`1/100` when the commission is exactly `0`) by the five strict
thresholds `5·feeCost, 3·feeCost, feeCost, 0, −feeCost`; in particular
`realizedPnL = 100, commission = −10` grades `A+` and
`realizedPnL = 5, commission = −10` grades `D`. -/
theorem grade_thresholds :
    (∀ pnl fee : ℚ,
      grade_trade pnl fee =
        (if pnl + fee > 5 * (if fee = 0 then 1 / 100 else |fee|) then "A+"
         else if pnl + fee > 3 * (if fee = 0 then 1 / 100 else |fee|) then "A"
         else if pnl + fee > (if fee = 0 then 1 / 100 else |fee|) then "B"
         else if pnl + fee > 0 then "C"
         else if pnl + fee > -(if fee = 0 then 1 / 100 else |fee|) then "D"
         else "F"))
    ∧ grade_trade 100 (-10) = "A+"
    ∧ grade_trade 5 (-10) = "D" := by
  refine ⟨?_, ?_, ?_⟩
  · intro pnl fee
    by_cases h : fee = 0 <;> simp [grade_trade, h, ratAbs_eq_abs, gt_iff_lt]
  · norm_num [grade_trade, ratAbs]
  · norm_num [grade_trade, ratAbs]

/-! ### Closed-trade statistics and profit factor -/

/-- Source `gross_profit`: sum of the winning closed trades (the sum of an
empty selection is `0`, matching the `if len(wins) > 0 else 0`
default in the source). -/
def grossProfitOf (ct : DF) : ℚ :=
  ((ct.filter (fun r => decide (0 < r.pnl))).map (fun r => r.pnl)).sum

/-- The raw (signed) sum of the losing closed trades. -/
def lossSumOf (ct : DF) : ℚ :=
  ((ct.filter (fun r => decide (r.pnl < 0))).map (fun r => r.pnl)).sum

/-- Source `gross_loss = abs(losses["FifoPnlRealized"].sum())`. -/
def grossLossOf (ct : DF) : ℚ := ratAbs (lossSumOf ct)

/-- A profit-factor value: either a finite rational or `np.inf`. -/
inductive PFVal where
  | val (q : ℚ)
  | infty
deriving DecidableEq, Repr

/-- The profit-factor computation of `analyze_trades`: over a non-empty
closed-trade set, `gross_profit / gross_loss` when `gross_loss > 0` and
`np.inf` otherwise; `0` when there are no closed trades. -/
def profitFactorOf (ct : DF) : PFVal :=
  if 0 < ct.length then
    if 0 < grossLossOf ct then PFVal.val (grossProfitOf ct / grossLossOf ct)
    else PFVal.infty
  else PFVal.val 0

/-- The `profit_factor` as returned by `analyze_trades` on a ledger. -/
def profit_factor (df : DF) : PFVal := profitFactorOf (closed_trades df)

/-- A ledger whose only row is a closed losing trade. -/
def lossOnlyExample : DF := [mkRow (DateVal.dt 1) "XYZ" (-5) 10 (-10) (-1)]

/-- Counterexample to C2: on a ledger with a single closed losing trade
the closed-trade set is non-empty yet the profit factor is `0`
(`gross_profit = 0`, `gross_loss = 10`), so "profit factor = 0 iff the
closed-trade set is empty" fails in the only-if direction. -/
theorem profit_factor_zero_on_nonempty :
    closed_trades lossOnlyExample ≠ [] ∧
    profit_factor lossOnlyExample = PFVal.val 0 := by
  constructor
  · norm_num [closed_trades, closedOf, normalize, toDatetimeCol, sortByDate,
      List.insertionSort, List.orderedInsert, lossOnlyExample, mkRow, parseDate]
  · norm_num [profit_factor, profitFactorOf, closed_trades, closedOf, normalize,
      toDatetimeCol, sortByDate, List.insertionSort, List.orderedInsert,
      lossOnlyExample, mkRow, parseDate, grossLossOf, grossProfitOf, lossSumOf,
      ratAbs]

/-- C2 (amended): the profit factor is `np.inf` iff the closed-trade set
is non-empty with loss sum `0`; it is `0` when the closed-trade set is
empty; otherwise it is `grossProfit / grossLoss` — which can itself be
`0` when there are no winning trades, so `profit factor = 0` does not
imply the closed-trade set is empty. -/
theorem profit_factor_characterization (df : DF) :
    (profit_factor df = PFVal.infty ↔
      closed_trades df ≠ [] ∧ lossSumOf (closed_trades df) = 0)
    ∧ profit_factor df =
        (if closed_trades df = [] then PFVal.val 0
         else if lossSumOf (closed_trades df) = 0 then PFVal.infty
         else PFVal.val
           (grossProfitOf (closed_trades df) / grossLossOf (closed_trades df))) := by
  have habs : grossLossOf (closed_trades df) = |lossSumOf (closed_trades df)| :=
    ratAbs_eq_abs _
  have hpos : 0 < grossLossOf (closed_trades df) ↔
      lossSumOf (closed_trades df) ≠ 0 := by
    rw [habs]
    exact abs_pos
  by_cases hne : closed_trades df = []
  · constructor
    · simp [profit_factor, profitFactorOf, hne]
    · simp [profit_factor, profitFactorOf, hne]
  · have hlen : 0 < (closed_trades df).length := List.length_pos.mpr hne
    by_cases hls : lossSumOf (closed_trades df) = 0
    · constructor
      · simp [profit_factor, profitFactorOf, hlen, hpos, hls, hne]
      · simp [profit_factor, profitFactorOf, hlen, hpos, hls, hne]
    · constructor
      · simp [profit_factor, profitFactorOf, hlen, hpos, hls, hne]
      · simp [profit_factor, profitFactorOf, hlen, hpos, hls, hne]

/-! ### Streak detection (section 5 of `analyze_trades`) -/

/-- Model of the assignment of the win tag column (comparing
`FifoPnlRealized` with 0 on the closed trades):
the chronological win/loss tag sequence of the closed trades. -/
def isWinSeq (ct : DF) : List Bool := ct.map (fun r => decide (0 < r.pnl))

/-- The maximal runs of identical tag, each with its tag (`first`) and
its length (`size`) — the source builds them with
`IsWin.ne(IsWin.shift()).cumsum()` grouping. -/
def runs : List Bool → List (Bool × Nat)
  | [] => []
  | b :: bs =>
    match runs bs with
    | [] => [(b, 1)]
    | (c, n) :: t => if b = c then (c, n + 1) :: t else (b, 1) :: (c, n) :: t

/-- The run lengths with tag `b` (`win_streaks` / `loss_streaks`). -/
def streakSizes (b : Bool) (l : List Bool) : List Nat :=
  ((runs l).filter (fun p => p.1 == b)).map (fun p => p.2)

/-- Model of `win_streaks.max() if not win_streaks.empty else 0`. -/
def maxStreakOf (b : Bool) (l : List Bool) : Nat :=
  match streakSizes b l with
  | [] => 0
  | x :: xs => xs.foldl max x

/-- The `max_win_streak` as returned by `analyze_trades`. -/
def max_win_streak (df : DF) : Nat :=
  maxStreakOf true (isWinSeq (closed_trades df))

/-- The `max_loss_streak` as returned by `analyze_trades`. -/
def max_loss_streak (df : DF) : Nat :=
  maxStreakOf false (isWinSeq (closed_trades df))

/-- Applying `runs` to a non-empty sequence gives a non-empty list. -/
theorem runs_ne_nil (x : Bool) (xs : List Bool) : runs (x :: xs) ≠ [] := by
  unfold runs
  cases runs xs with
  | nil => simp
  | cons p t =>
    obtain ⟨c, n⟩ := p
    by_cases h : x = c <;> simp [h]

/-- Replacing each run by that many copies of its tag recovers the
original sequence: the runs really partition it, in order. -/
theorem runs_join (l : List Bool) :
    (runs l).flatMap (fun p => List.replicate p.2 p.1) = l := by
  induction l with
  | nil => rfl
  | cons b bs ih =>
    cases hr : runs bs with
    | nil =>
      have hbs : bs = [] := by
        cases bs with
        | nil => rfl
        | cons x xs => exact absurd hr (runs_ne_nil x xs)
      subst hbs
      simp [runs]
    | cons p t =>
      obtain ⟨c, n⟩ := p
      rw [hr] at ih
      by_cases hbc : b = c
      · subst hbc
        have : runs (b :: bs) = (b, n + 1) :: t := by
          simp [runs, hr]
        rw [this]
        simp only [List.flatMap_cons, List.replicate_succ] at ih ⊢
        rw [List.cons_append, ih]
      · have : runs (b :: bs) = (b, 1) :: (c, n) :: t := by
          simp [runs, hr, hbc]
        rw [this]
        simp only [List.flatMap_cons, List.replicate_one, List.singleton_append] at ih ⊢
        rw [ih]

/-- The run lengths sum to the length of the tag sequence. -/
theorem runs_sizes_sum (l : List Bool) :
    ((runs l).map (fun p => p.2)).sum = l.length := by
  induction l with
  | nil => rfl
  | cons b bs ih =>
    cases hr : runs bs with
    | nil =>
      have hbs : bs = [] := by
        cases bs with
        | nil => rfl
        | cons x xs => exact absurd hr (runs_ne_nil x xs)
      subst hbs
      simp [runs]
    | cons p t =>
      obtain ⟨c, n⟩ := p
      rw [hr] at ih
      by_cases hbc : b = c
      · subst hbc
        have : runs (b :: bs) = (b, n + 1) :: t := by
          simp [runs, hr]
        rw [this]
        simp only [List.map_cons, List.sum_cons, List.length_cons] at ih ⊢
        omega
      · have : runs (b :: bs) = (b, 1) :: (c, n) :: t := by
          simp [runs, hr, hbc]
        rw [this]
        simp only [List.map_cons, List.sum_cons, List.length_cons] at ih ⊢
        omega

/-- Splitting a run list by tag splits its length total. -/
theorem sizes_filter_split (P : List (Bool × Nat)) :
    ((P.filter (fun p => p.1 == true)).map (fun p => p.2)).sum
      + ((P.filter (fun p => p.1 == false)).map (fun p => p.2)).sum
      = (P.map (fun p => p.2)).sum := by
  induction P with
  | nil => rfl
  | cons p t ih =>
    obtain ⟨c, n⟩ := p
    cases c
    · have h1 : List.filter (fun p => p.1 == true) ((false, n) :: t)
          = List.filter (fun p => p.1 == true) t := by
        rw [List.filter_cons]
        rfl
      have h2 : List.filter (fun p => p.1 == false) ((false, n) :: t)
          = (false, n) :: List.filter (fun p => p.1 == false) t := by
        rw [List.filter_cons]
        rfl
      rw [h1, h2]
      simp only [List.map_cons, List.sum_cons]
      omega
    · have h1 : List.filter (fun p => p.1 == true) ((true, n) :: t)
          = (true, n) :: List.filter (fun p => p.1 == true) t := by
        rw [List.filter_cons]
        rfl
      have h2 : List.filter (fun p => p.1 == false) ((true, n) :: t)
          = List.filter (fun p => p.1 == false) t := by
        rw [List.filter_cons]
        rfl
      rw [h1, h2]
      simp only [List.map_cons, List.sum_cons]
      omega

/-- Adjacent runs carry different tags: each run is maximal. -/
theorem runs_alternating (l : List Bool) :
    List.Chain' (fun p q : Bool × Nat => p.1 ≠ q.1) (runs l) := by
  induction l with
  | nil => simp [runs]
  | cons b bs ih =>
    cases hr : runs bs with
    | nil =>
      have : runs (b :: bs) = [(b, 1)] := by
        unfold runs
        rw [hr]
      rw [this]
      simp
    | cons p t =>
      obtain ⟨c, n⟩ := p
      rw [hr] at ih
      by_cases hbc : b = c
      · subst hbc
        have hrun : runs (b :: bs) = (b, n + 1) :: t := by
          simp [runs, hr]
        rw [hrun]
        rcases List.chain'_cons'.mp ih with ⟨h1, h2⟩
        exact List.chain'_cons'.mpr ⟨h1, h2⟩
      · have hrun : runs (b :: bs) = (b, 1) :: (c, n) :: t := by
          simp [runs, hr, hbc]
        rw [hrun]
        exact List.chain'_cons.mpr ⟨by simpa using hbc, ih⟩

/-- C8: the win-run lengths and loss-run lengths together sum to the
number of closed trades; the runs, replayed in order, reproduce the
win/loss sequence exactly and adjacent runs have different tags (so
they are the maximal runs); and `max_win_streak` / `max_loss_streak`
are the largest win-run and loss-run lengths, `0` when there is no such
run. -/
theorem streak_partition (df : DF) :
    ((streakSizes true (isWinSeq (closed_trades df))).sum
      + (streakSizes false (isWinSeq (closed_trades df))).sum
      = (closed_trades df).length)
    ∧ (runs (isWinSeq (closed_trades df))).flatMap
        (fun p => List.replicate p.2 p.1) = isWinSeq (closed_trades df)
    ∧ List.Chain' (fun p q : Bool × Nat => p.1 ≠ q.1)
        (runs (isWinSeq (closed_trades df)))
    ∧ max_win_streak df
        = ((streakSizes true (isWinSeq (closed_trades df))).max?).getD 0
    ∧ max_loss_streak df
        = ((streakSizes false (isWinSeq (closed_trades df))).max?).getD 0 := by
  refine ⟨?_, runs_join _, runs_alternating _, ?_, ?_⟩
  · have h1 := sizes_filter_split (runs (isWinSeq (closed_trades df)))
    have h2 := runs_sizes_sum (isWinSeq (closed_trades df))
    have h3 : (isWinSeq (closed_trades df)).length = (closed_trades df).length :=
      List.length_map _ _
    unfold streakSizes
    rw [h1, h2, h3]
  · unfold max_win_streak maxStreakOf
    cases streakSizes true (isWinSeq (closed_trades df)) with
    | nil => rfl
    | cons x xs => rfl
  · unfold max_loss_streak maxStreakOf
    cases streakSizes false (isWinSeq (closed_trades df)) with
    | nil => rfl
    | cons x xs => rfl

/-! ### Daily aggregation and the equity curve (sections 2–3 of
`analyze_trades`) -/

/-- Model of `df["TradeDate"].dt.date`: the calendar-date key of a row,
an arithmetic function of the timestamp (the concrete calendar encoding
is irrelevant to the theorems; only its role as a grouping key is
used). -/
def dateKey (r : TradeRow) : Int := Int.fdiv (parseDate r.tradeDate) 86400

/-- The distinct date keys of a ledger, in ascending order — the group
keys of `df.groupby(df["TradeDate"].dt.date)`. -/
def dayKeys (df : DF) : List Int :=
  List.insertionSort (fun a b : Int => a ≤ b) (df.map dateKey).dedup

/-- The daily net P/L series: for each distinct date, the sum of
`FifoPnlRealized` over the rows of that date
(`daily_stats["DailyNet"]`). -/
def dailyNet (df : DF) : List (Int × ℚ) :=
  (dayKeys df).map
    (fun d => (d, ((df.filter (fun r => decide (dateKey r = d))).map
      (fun r => r.pnl)).sum))

/-- Running cumulative sum (`Series.cumsum`), accumulator-passing. -/
def cumsumAux : List ℚ → ℚ → List ℚ
  | [], _ => []
  | x :: xs, acc => (acc + x) :: cumsumAux xs (acc + x)

/-- Model of `Series.cumsum()` on a value list. -/
def cumsum (l : List ℚ) : List ℚ := cumsumAux l 0

/-- The equity curve of `analyze_trades`: cumulative sum of the daily
net P/L of the normalized ledger. -/
def equity_curve (df : DF) : List ℚ :=
  cumsum ((dailyNet (normalize df)).map (fun p => p.2))

/-- Model of `total_pnl_net = df["FifoPnlRealized"].sum()` over the (cleaned)
full ledger. -/
def total_pnl_net (df : DF) : ℚ := ((normalize df).map (fun r => r.pnl)).sum

/-- The last entry of a cumulative sum, with default: the accumulator
plus the total when the list is non-empty, else the default. -/
theorem cumsumAux_getLastD (l : List ℚ) :
    ∀ acc d : ℚ, (cumsumAux l acc).getLastD d
      = if l.isEmpty then d else acc + l.sum := by
  induction l with
  | nil => intro acc d; rfl
  | cons x xs ih =>
    intro acc d
    simp only [cumsumAux, List.getLastD_cons, ih (acc + x) (acc + x)]
    cases xs with
    | nil => simp
    | cons y ys =>
      simp only [List.isEmpty_cons, List.sum_cons]
      simp
      ring

/-- A cumulative sum is empty exactly when its input is. -/
theorem cumsumAux_eq_nil (l : List ℚ) (acc : ℚ) :
    cumsumAux l acc = [] ↔ l = [] := by
  cases l with
  | nil => simp [cumsumAux]
  | cons x xs => simp [cumsumAux]

/-- Summing an indicator over a key list with no matching key gives 0. -/
theorem sum_if_not_mem (K : List Int) (k0 : Int) (c : ℚ) (h : k0 ∉ K) :
    (K.map (fun d => if k0 = d then c else 0)).sum = 0 := by
  induction K with
  | nil => rfl
  | cons d t ih =>
    have hne : k0 ≠ d := fun he => h (he ▸ List.mem_cons_self d t)
    have ht : k0 ∉ t := fun he => h (List.mem_cons_of_mem d he)
    simp only [List.map_cons, List.sum_cons, if_neg hne, ih ht, zero_add]

/-- Summing an indicator over a duplicate-free key list containing the
key once gives the indicated value. -/
theorem sum_if_mem (K : List Int) (hn : K.Nodup) (k0 : Int) (hk : k0 ∈ K)
    (c : ℚ) : (K.map (fun d => if k0 = d then c else 0)).sum = c := by
  induction K with
  | nil => exact absurd hk (List.not_mem_nil k0)
  | cons d t ih =>
    rcases List.nodup_cons.mp hn with ⟨hdt, hnt⟩
    rcases List.mem_cons.mp hk with he | ht
    · subst he
      simp [List.map_cons, List.sum_cons, sum_if_not_mem t k0 c hdt]
    · have hne : k0 ≠ d := fun he => hdt (he ▸ ht)
      simp only [List.map_cons, List.sum_cons, if_neg hne, ih hnt ht, zero_add]

/-- Fiberwise summation over the distinct keys of a list: summing, over
each distinct key, the values of the elements with that key, gives the
total of all values.  This is the grouping identity behind
`groupby(...).sum()`. -/
theorem dedup_fiber_sum {α : Type} (f : α → Int) (g : α → ℚ) (l : List α) :
    (((l.map f).dedup).map
      (fun d => ((l.filter (fun a => decide (f a = d))).map g).sum)).sum
    = (l.map g).sum := by
  induction l with
  | nil => rfl
  | cons a t ih =>
    have hstep : ∀ d : Int,
        (((a :: t).filter (fun x => decide (f x = d))).map g).sum
          = (if f a = d then g a else 0)
            + ((t.filter (fun x => decide (f x = d))).map g).sum := by
      intro d
      by_cases h : f a = d
      · simp [List.filter_cons, h]
      · simp [List.filter_cons, h]
    have hsplit : ∀ K : List Int,
        (K.map (fun d =>
          (((a :: t).filter (fun x => decide (f x = d))).map g).sum)).sum
        = (K.map (fun d => if f a = d then g a else 0)).sum
          + (K.map (fun d =>
              ((t.filter (fun x => decide (f x = d))).map g).sum)).sum := by
      intro K
      rw [← List.sum_map_add]
      exact congrArg _ (List.map_congr_left (fun d _ => hstep d))
    by_cases hmem : f a ∈ t.map f
    · have hd : ((a :: t).map f).dedup = (t.map f).dedup := by
        simp only [List.map_cons]
        exact List.dedup_cons_of_mem hmem
      rw [hd, hsplit, ih,
        sum_if_mem _ (List.nodup_dedup _) _ (List.mem_dedup.mpr hmem) _]
      simp
    · have hd : ((a :: t).map f).dedup = f a :: (t.map f).dedup := by
        simp only [List.map_cons]
        exact List.dedup_cons_of_not_mem hmem
      have h1 : ((f a :: (t.map f).dedup).map
            (fun d => if f a = d then g a else 0)).sum = g a := by
        simp [sum_if_not_mem _ _ _ (fun hc => hmem (List.mem_dedup.mp hc))]
      have hfe : t.filter (fun x => decide (f x = f a)) = [] := by
        rw [List.filter_eq_nil_iff]
        intro x hx
        simp only [decide_eq_true_eq]
        exact fun hfx => hmem (List.mem_map.mpr ⟨x, hx, hfx⟩)
      have h2 : ((f a :: (t.map f).dedup).map
            (fun d => ((t.filter (fun x => decide (f x = d))).map g).sum)).sum
          = (t.map g).sum := by
        simp only [List.map_cons, List.sum_cons, hfe, List.map_nil,
          List.sum_nil, zero_add]
        exact ih
      rw [hd, hsplit, h1, h2]
      simp

/-- The daily net values of a ledger sum to the total P/L of the ledger. -/
theorem dailyNet_values_sum (df : DF) :
    ((dailyNet df).map (fun p => p.2)).sum = (df.map (fun r => r.pnl)).sum := by
  unfold dailyNet dayKeys
  rw [List.map_map]
  have hperm :
      (List.insertionSort (fun a b : Int => a ≤ b) (df.map dateKey).dedup).Perm
        ((df.map dateKey).dedup) := List.perm_insertionSort _ _
  have hps := (hperm.map (fun d =>
    ((df.filter (fun r => decide (dateKey r = d))).map (fun r => r.pnl)).sum)).sum_eq
  calc ((List.insertionSort (fun a b : Int => a ≤ b) (df.map dateKey).dedup).map
          ((fun p : Int × ℚ => p.2) ∘ (fun d =>
            (d, ((df.filter (fun r => decide (dateKey r = d))).map
              (fun r => r.pnl)).sum)))).sum
      = ((List.insertionSort (fun a b : Int => a ≤ b) (df.map dateKey).dedup).map
          (fun d => ((df.filter (fun r => decide (dateKey r = d))).map
            (fun r => r.pnl)).sum)).sum := rfl
    _ = (((df.map dateKey).dedup).map
          (fun d => ((df.filter (fun r => decide (dateKey r = d))).map
            (fun r => r.pnl)).sum)).sum := hps
    _ = (df.map (fun r => r.pnl)).sum := dedup_fiber_sum dateKey (fun r => r.pnl) df

/-- Normalization permutes the ledger, so preserves the P/L total. -/
theorem total_pnl_eq_raw_sum (df : DF) :
    total_pnl_net df = (df.map (fun r => r.pnl)).sum := by
  unfold total_pnl_net normalize sortByDate
  have hperm := (List.perm_insertionSort
    (fun a b : TradeRow => parseDate a.tradeDate ≤ parseDate b.tradeDate)
    (toDatetimeCol df)).map (fun r => r.pnl)
  rw [hperm.sum_eq]
  unfold toDatetimeCol
  rw [List.map_map]
  rfl

/-- C3: for every ledger, the total realized P/L over the full ledger
(all rows, openers included) equals the last value of the equity curve
obtained by grouping P/L by calendar date and cumulating; stated for
the default-valued last entry unconditionally, and for the genuine last
entry whenever the ledger is non-empty (an empty ledger has an empty
curve and hence no last value). -/
theorem equity_curve_last (df : DF) :
    (equity_curve df).getLastD 0 = total_pnl_net df
    ∧ total_pnl_net df = (df.map (fun r => r.pnl)).sum
    ∧ (df ≠ [] → (equity_curve df).getLast? = some (total_pnl_net df)) := by
  have hval : ((dailyNet (normalize df)).map (fun p => p.2)).sum
      = total_pnl_net df := dailyNet_values_sum (normalize df)
  have h1 : (equity_curve df).getLastD 0 = total_pnl_net df := by
    unfold equity_curve cumsum
    rw [cumsumAux_getLastD]
    by_cases h : ((dailyNet (normalize df)).map (fun p => p.2)).isEmpty
    · rw [if_pos h, ← hval, List.isEmpty_iff.mp h]
      rfl
    · rw [if_neg h, zero_add, hval]
  refine ⟨h1, total_pnl_eq_raw_sum df, ?_⟩
  intro hne
  have hlen : (normalize df).length = df.length := by
    unfold normalize sortByDate
    rw [(List.perm_insertionSort _ _).length_eq]
    unfold toDatetimeCol
    rw [List.length_map]
  have hnn : normalize df ≠ [] := by
    intro h0
    apply hne
    rw [← List.length_eq_zero, ← hlen, h0]
    rfl
  have hkeys : dayKeys (normalize df) ≠ [] := by
    unfold dayKeys
    intro h0
    have hperm := List.perm_insertionSort (fun a b : Int => a ≤ b)
      ((normalize df).map dateKey).dedup
    rw [h0] at hperm
    have hded : ((normalize df).map dateKey).dedup = [] :=
      List.perm_nil.mp hperm.symm
    rw [List.dedup_eq_nil, List.map_eq_nil_iff] at hded
    exact hnn hded
  have hvne : (dailyNet (normalize df)).map (fun p => p.2) ≠ [] := by
    unfold dailyNet
    intro h0
    rw [List.map_eq_nil_iff, List.map_eq_nil_iff] at h0
    exact hkeys h0
  have hcne : equity_curve df ≠ [] := by
    unfold equity_curve cumsum
    intro h0
    exact hvne ((cumsumAux_eq_nil _ _).mp h0)
  obtain ⟨x, hx⟩ := Option.isSome_iff_exists.mp (List.getLast?_isSome.mpr hcne)
  have h2 : (equity_curve df).getLast?.getD 0 = total_pnl_net df := by
    rw [← List.getLastD_eq_getLast?]
    exact h1
  rw [hx] at h2 ⊢
  exact congrArg some h2

/-- Witness for C3: on the FIFO example ledger (all `realizedPnL` zero)
the equity curve ends at `some 0`, the full-ledger total. -/
theorem equity_curve_last_witness :
    fifoExample ≠ [] ∧
    (equity_curve fifoExample).getLast? = some (total_pnl_net fifoExample) := by
  refine ⟨by simp [fifoExample], (equity_curve_last fifoExample).2.2 (by simp [fifoExample])⟩

/-! ### Drawdown (section 3 of `analyze_trades`) -/

/-- Running maximum (`Series.cummax`), accumulator-passing. -/
def cummaxAux : List ℚ → ℚ → List ℚ
  | [], _ => []
  | x :: xs, acc => max acc x :: cummaxAux xs (max acc x)

/-- Model of `Series.cummax()` on a value list. -/
def cummax : List ℚ → List ℚ
  | [] => []
  | x :: xs => x :: cummaxAux xs x

/-- Model of `Series.min()`: `none` models the NaN pandas returns on an empty
series. -/
def seriesMin : List ℚ → Option ℚ
  | [] => none
  | x :: xs => some (xs.foldl min x)

/-- Model of `Series.max()`: `none` models the NaN pandas returns on an empty
series. -/
def seriesMax : List ℚ → Option ℚ
  | [] => none
  | x :: xs => some (xs.foldl max x)

/-- Model of `drawdown = equity_curve - running_max` (elementwise). -/
def drawdown_curve (df : DF) : List ℚ :=
  List.zipWith (fun e m => e - m) (equity_curve df) (cummax (equity_curve df))

/-- Model of `max_drawdown = drawdown.min()` — NaN (`none`) on an empty series,
since the source takes the pandas minimum with no emptiness guard. -/
def max_drawdown (df : DF) : Option ℚ := seriesMin (drawdown_curve df)

/-- Counterexample to C5: on the empty ledger the daily series, equity
curve and drawdown series are empty, and `drawdown.min()` is NaN
(`none`), not the claimed `0` — unlike `max_dd_duration`, no
`pd.isna` guard is applied to `max_drawdown` in the source. -/
theorem max_drawdown_empty_cex :
    max_drawdown ([] : DF) = none ∧ (none : Option ℚ) ≠ some 0 := by
  constructor
  · rfl
  · simp

/-- C5 (amended): when the daily net P/L series is empty (e.g. on an
empty ledger), `analyze_trades` still returns without failing, but
`max_drawdown` is NaN (modelled `none`), not the well-defined `0` the
claim states. -/
theorem max_drawdown_empty (df : DF) (h : dailyNet (normalize df) = []) :
    max_drawdown df = none := by
  unfold max_drawdown drawdown_curve equity_curve cumsum
  rw [h]
  rfl

/-- Witness for C5 (amended): the empty ledger has an empty daily
series and NaN `max_drawdown`. -/
theorem max_drawdown_empty_witness :
    dailyNet (normalize ([] : DF)) = [] ∧ max_drawdown ([] : DF) = none :=
  ⟨rfl, max_drawdown_empty [] rfl⟩

/-! ### Per-symbol table (section 6 of `analyze_trades`) -/

/-- The `BestTrade` column cell for a symbol: when there are closed
trades, the aligned join of `closed_trades.groupby("Symbol")[...].max()`
— NaN (`none`) for a symbol absent from the closed-trade set, since the
source applies no `fillna` here; when there are no closed trades at
all, the scalar `0` is broadcast instead. -/
def bestTradeCol (df : DF) (s : String) : Option ℚ :=
  if 0 < (closed_trades df).length then
    seriesMax (((closed_trades df).filter
      (fun r => decide (r.symbol = s))).map (fun r => r.pnl))
  else some 0

/-- The `WorstTrade` column cell for a symbol (groupby minimum,
aligned join, no `fillna`). -/
def worstTradeCol (df : DF) (s : String) : Option ℚ :=
  if 0 < (closed_trades df).length then
    seriesMin (((closed_trades df).filter
      (fun r => decide (r.symbol = s))).map (fun r => r.pnl))
  else some 0

/-- A two-symbol ledger: `AAA` has a closed trade, `BBB` only an
opening buy (zero realized P/L). -/
def mixedSymbolExample : DF :=
  [ mkRow (DateVal.dt 1) "AAA" (-5) 3 10 (-1),
    mkRow (DateVal.dt 2) "BBB" 4 7 0 (-1) ]

/-- Counterexample to C6: `BBB` appears in the ledger, another symbol
has closed trades, yet the best-trade and worst-trade cells of `BBB` are NaN
(`none`), not `0` — the `BestTrade`/`WorstTrade` assignment has no
`fillna(0)`, unlike the `Wins`/`Losses` columns. -/
theorem best_trade_nan_cex :
    "BBB" ∈ mixedSymbolExample.map (fun r => r.symbol)
    ∧ closed_trades mixedSymbolExample ≠ []
    ∧ bestTradeCol mixedSymbolExample "BBB" = none
    ∧ worstTradeCol mixedSymbolExample "BBB" = none
    ∧ bestTradeCol mixedSymbolExample "BBB" ≠ some 0 := by
  have hAB : ("AAA" : String) ≠ "BBB" := by decide
  refine ⟨by simp [mixedSymbolExample, mkRow], ?_, ?_, ?_, ?_⟩
  · norm_num [closed_trades, closedOf, normalize, toDatetimeCol, sortByDate,
      List.insertionSort, List.orderedInsert, mixedSymbolExample, mkRow, parseDate]
  · norm_num [bestTradeCol, seriesMax, closed_trades, closedOf, normalize,
      toDatetimeCol, sortByDate, List.insertionSort, List.orderedInsert,
      mixedSymbolExample, mkRow, parseDate, List.filter_cons, decide_eq_true_eq, hAB]
  · norm_num [worstTradeCol, seriesMin, closed_trades, closedOf, normalize,
      toDatetimeCol, sortByDate, List.insertionSort, List.orderedInsert,
      mixedSymbolExample, mkRow, parseDate, List.filter_cons, decide_eq_true_eq, hAB]
  · have hb : bestTradeCol mixedSymbolExample "BBB" = none := by
      norm_num [bestTradeCol, seriesMax, closed_trades, closedOf, normalize,
        toDatetimeCol, sortByDate, List.insertionSort, List.orderedInsert,
        mixedSymbolExample, mkRow, parseDate, List.filter_cons, decide_eq_true_eq, hAB]
    rw [hb]
    simp

/-- C6 (amended): in the per-symbol table, when the closed-trade set is
non-empty, a symbol with no closed trades gets NaN (`none`) — not `0` —
in the best-trade and worst-trade columns (the scalar `0` default only
applies in the branch where no symbol has closed trades). -/
theorem best_trade_nan (df : DF) (s : String)
    (h1 : closed_trades df ≠ [])
    (h2 : (closed_trades df).filter (fun r => decide (r.symbol = s)) = []) :
    bestTradeCol df s = none ∧ worstTradeCol df s = none := by
  have hl : 0 < (closed_trades df).length := List.length_pos.mpr h1
  constructor
  · simp [bestTradeCol, hl, h2, seriesMax]
  · simp [worstTradeCol, hl, h2, seriesMin]

/-- Witness for C6 (amended), at the two-symbol ledger and symbol
`BBB`. -/
theorem best_trade_nan_witness :
    closed_trades mixedSymbolExample ≠ []
    ∧ (closed_trades mixedSymbolExample).filter
        (fun r => decide (r.symbol = "BBB")) = []
    ∧ (bestTradeCol mixedSymbolExample "BBB" = none
        ∧ worstTradeCol mixedSymbolExample "BBB" = none) := by
  have hne : closed_trades mixedSymbolExample ≠ [] := by
    norm_num [closed_trades, closedOf, normalize, toDatetimeCol, sortByDate,
      List.insertionSort, List.orderedInsert, mixedSymbolExample, mkRow, parseDate]
  have hAB : ("AAA" : String) ≠ "BBB" := by decide
  have hf : (closed_trades mixedSymbolExample).filter
      (fun r => decide (r.symbol = "BBB")) = [] := by
    norm_num [closed_trades, closedOf, normalize, toDatetimeCol, sortByDate,
      List.insertionSort, List.orderedInsert, mixedSymbolExample, mkRow,
      parseDate, List.filter_cons, decide_eq_true_eq, hAB]
  exact ⟨hne, hf, best_trade_nan mixedSymbolExample "BBB" hne hf⟩

/-! ### Object store: which Python dataframe object each statement
writes to.  A reference is an index into the store; reads of an
unallocated reference yield the empty frame. -/

/-- Abstract model of `.dt.day_name()`: a weekday key of the
timestamp (the concrete calendar arithmetic is external to the
analyzed code). -/
def weekdayKey (t : Int) : Int := Int.fdiv t 86400 % 7

/-- Abstract model of `.dt.to_period("M")`: a month key of the
timestamp (the concrete calendar arithmetic is external to the
analyzed code). -/
def monthKey (t : Int) : Int := Int.fdiv (Int.fdiv t 86400) 30

/-- The derived columns `analyze_trades` writes onto the closed-trade
copy: `IsWin` (line 129), `DayOfWeek`/`Month` (lines 189–190) and
`Grade` (line 231). -/
def annotate (ct : DF) : DF :=
  ct.map (fun r =>
    { r with
        isWin := some (decide (0 < r.pnl)),
        dayOfWeek := some (weekdayKey (parseDate r.tradeDate)),
        month := some (monthKey (parseDate r.tradeDate)),
        grade := some (grade_trade r.pnl r.commission) })

/-- A store of dataframe objects. -/
structure ObjStore where
  objs : List DF

/-- Read the frame an index refers to. -/
def ObjStore.read (s : ObjStore) (i : Nat) : DF := s.objs.getD i []

/-- Overwrite the frame at an index (an in-place pandas mutation). -/
def ObjStore.write (s : ObjStore) (i : Nat) (d : DF) : ObjStore :=
  ⟨s.objs.set i d⟩

/-- Allocate a fresh frame (`df.copy()` / a new object), returning its
reference. -/
def ObjStore.alloc (s : ObjStore) (d : DF) : ObjStore × Nat :=
  (⟨s.objs ++ [d]⟩, s.objs.length)

/-- Allocation does not disturb existing references. -/
theorem ObjStore.read_alloc (s : ObjStore) (d : DF) (i : Nat)
    (h : i < s.objs.length) : (s.alloc d).1.read i = s.read i := by
  unfold ObjStore.alloc ObjStore.read
  exact List.getD_append _ _ _ _ h

/-- Writing one reference does not disturb a different one. -/
theorem ObjStore.read_write_ne (s : ObjStore) (j : Nat) (d : DF) (i : Nat)
    (h : i ≠ j) : (s.write j d).read i = s.read i := by
  unfold ObjStore.write ObjStore.read
  rw [List.getD_eq_getElem?_getD, List.getD_eq_getElem?_getD,
    List.getElem?_set_ne (Ne.symm h)]

/-- Reading back a value just written over the prior content of the same
reference (the written value is derived from the read, so an unallocated
reference — empty frame in, empty transform out — also agrees). -/
theorem ObjStore.read_write_self_map (s : ObjStore) (r : Nat) (f : DF → DF)
    (hf : f [] = []) : (s.write r (f (s.read r))).read r = f (s.read r) := by
  unfold ObjStore.write ObjStore.read
  by_cases h : r < s.objs.length
  · rw [List.getD_eq_getElem?_getD, List.getElem?_set_self (by simpa using h)]
    rfl
  · rw [List.set_eq_of_length_le (le_of_not_lt h),
      List.getD_eq_default _ _ (le_of_not_lt h)]
    exact hf.symm

/-! ### `filter_trades_by_date` (C9) -/

/-- Model of `filter_trades_by_date(df, start_date, end_date)`:
`df["TradeDate"] = pd.to_datetime(df["TradeDate"])` writes the parsed
column back onto the frame of the caller (no copy is taken), then each
present bound filters (into fresh frames) with an inclusive
comparison; the filtered result is returned. -/
def filter_trades_by_date (s : ObjStore) (r : Nat)
    (start_date : Option Int) (end_date : Option Int) : ObjStore × DF :=
  let s1 := s.write r (toDatetimeCol (s.read r))
  let d1 := s1.read r
  let d2 := match start_date with
    | some a => d1.filter (fun row => decide (a ≤ parseDate row.tradeDate))
    | none => d1
  let d3 := match end_date with
    | some b => d2.filter (fun row => decide (parseDate row.tradeDate ≤ b))
    | none => d2
  (s1, d3)

/-- A one-row ledger whose `TradeDate` cell is still raw text. -/
def rawDateExample : DF := [mkRow (DateVal.raw 5) "XYZ" 1 2 0 0]

/-- A store holding only the raw-dated ledger at reference 0. -/
def rawStore : ObjStore := ⟨[rawDateExample]⟩

/-- Counterexample to C9: `filter_trades_by_date` is not a pure filter —
after the call (even with no bounds) the ledger of the caller has changed:
its `TradeDate` column now holds the parsed datetimes instead of the
raw values, because the first line assigns the parsed column to the
very frame of the caller. -/
theorem filter_by_date_mutates :
    (filter_trades_by_date rawStore 0 none none).1.read 0 ≠ rawStore.read 0 := by
  simp [filter_trades_by_date, ObjStore.write, ObjStore.read, rawStore,
    rawDateExample, toDatetimeCol, mkRow, parseDate]

/-- C9 (amended): `filter_trades_by_date` returns exactly the rows of
the (date-parsed) ledger whose `TradeDate` lies in the inclusive range
`[start, end]` — a missing bound imposing no constraint — but it
mutates the ledger of the caller: the frame of the caller afterwards is its old
frame with the `TradeDate` column overwritten by the parsed datetimes
(and no other change). -/
theorem filter_by_date_spec (s : ObjStore) (r : Nat)
    (sd ed : Option Int) :
    (filter_trades_by_date s r sd ed).2
      = (toDatetimeCol (s.read r)).filter
          (fun row => sd.all (fun a => decide (a ≤ parseDate row.tradeDate))
            && ed.all (fun b => decide (parseDate row.tradeDate ≤ b)))
    ∧ (filter_trades_by_date s r sd ed).1
        = s.write r (toDatetimeCol (s.read r)) := by
  constructor
  · have hread : (s.write r (toDatetimeCol (s.read r))).read r
        = toDatetimeCol (s.read r) :=
      ObjStore.read_write_self_map s r toDatetimeCol rfl
    cases sd with
    | none =>
      cases ed with
      | none =>
        simp [filter_trades_by_date, hread, Option.all]
      | some b =>
        simp [filter_trades_by_date, hread, Option.all]
    | some a =>
      cases ed with
      | none =>
        simp [filter_trades_by_date, hread, Option.all]
      | some b =>
        simp only [filter_trades_by_date, hread, List.filter_filter]
        apply List.filter_congr
        intro row _
        simp [Option.all_some, Bool.and_comm]
  · rfl

/-! ### `analyze_trades` works on a copy (C10) -/

/-- The summary fields of the result bundle used here, together with
the reference of the returned annotated closed-trade frame
(`processed_df`); the scalar fields are the pure stage functions of
this file applied to the cleaned frame. -/
structure AnalysisOut where
  total_pnl : ℚ
  total_fees : ℚ
  pf : PFVal
  maxDD : Option ℚ
  winStreak : Nat
  lossStreak : Nat
  processedRef : Nat

/-- Model of `analyze_trades` at the object level: copy the frame of the caller
(line 13), clean and sort the copy in place, copy the closed-trade
selection (line 82), annotate that copy in place, and return the
aggregates with the reference of the annotated frame. -/
def analyze_trades_st (s : ObjStore) (r : Nat) : ObjStore × AnalysisOut :=
  let p1 := s.alloc (s.read r)
  let s1 := p1.1
  let dfRef := p1.2
  let s2 := s1.write dfRef (normalize (s1.read dfRef))
  let df := s2.read dfRef
  let p2 := s2.alloc (closedOf df)
  let s3 := p2.1
  let ctRef := p2.2
  let s4 := s3.write ctRef (annotate (s3.read ctRef))
  (s4,
    { total_pnl := (df.map (fun x => x.pnl)).sum,
      total_fees := (df.map (fun x => x.commission)).sum,
      pf := profitFactorOf (closedOf df),
      maxDD := seriesMin (List.zipWith (fun e m => e - m)
        (cumsum ((dailyNet df).map (fun p => p.2)))
        (cummax (cumsum ((dailyNet df).map (fun p => p.2))))),
      winStreak := maxStreakOf true (isWinSeq (closedOf df)),
      lossStreak := maxStreakOf false (isWinSeq (closedOf df)),
      processedRef := ctRef })

/-- C10: `analyze_trades` never modifies its input frame — after the
call the reference of the caller still holds exactly the frame it held
before (the function works on a `df.copy()`, and both in-place writes
target the two fresh objects) — and the returned annotated
closed-trade frame is a separate object, not the frame of the caller. -/
theorem analyze_trades_pure (s : ObjStore) (r : Nat)
    (h : r < s.objs.length) :
    ((analyze_trades_st s r).1).read r = s.read r
    ∧ (analyze_trades_st s r).2.processedRef ≠ r := by
  have hlen1 : (s.alloc (s.read r)).1.objs.length = s.objs.length + 1 := by
    simp [ObjStore.alloc]
  have hlen2 : ((s.alloc (s.read r)).1.write (s.alloc (s.read r)).2
      (normalize ((s.alloc (s.read r)).1.read
        (s.alloc (s.read r)).2))).objs.length = s.objs.length + 1 := by
    simp [ObjStore.write, hlen1]
  constructor
  · show ((((s.alloc (s.read r)).1.write (s.alloc (s.read r)).2
        (normalize ((s.alloc (s.read r)).1.read (s.alloc (s.read r)).2))).alloc
          _).1.write _ _).read r = s.read r
    rw [ObjStore.read_write_ne _ _ _ _ (by
      show r ≠ ((s.alloc (s.read r)).1.write _ _).objs.length
      rw [hlen2]
      omega)]
    rw [ObjStore.read_alloc _ _ _ (by rw [hlen2]; omega)]
    rw [ObjStore.read_write_ne _ _ _ _ (by
      show r ≠ (s.alloc (s.read r)).2
      simp only [ObjStore.alloc]
      omega)]
    exact ObjStore.read_alloc _ _ _ h
  · show ((s.alloc (s.read r)).1.write (s.alloc (s.read r)).2
        (normalize ((s.alloc (s.read r)).1.read
          (s.alloc (s.read r)).2))).objs.length ≠ r
    rw [hlen2]
    omega

/-- Witness for C10: a store holding the FIFO example ledger at
reference 0 is unchanged at that reference by the analysis, and the
returned annotated frame lives elsewhere. -/
theorem analyze_trades_pure_witness :
    0 < (ObjStore.mk [fifoExample]).objs.length
    ∧ ((analyze_trades_st ⟨[fifoExample]⟩ 0).1.read 0
          = (ObjStore.mk [fifoExample]).read 0
        ∧ (analyze_trades_st ⟨[fifoExample]⟩ 0).2.processedRef ≠ 0) :=
  ⟨by simp, analyze_trades_pure ⟨[fifoExample]⟩ 0 (by simp)⟩

end Analyzer
